import Mathlib

/-!
Shallow embedding of the rotary position-embedding (RoPE) engine of
`src/max/nn/rotary_embedding.py`.

Modelling conventions:
- graph tensors (`TensorValue`) are modelled as real-valued functions of
  their integer indices; elementwise graph operations become pointwise
  real operations;
- Python float arithmetic is modelled over the reals, `x ** y` becomes
  `Real.rpow`, and Python integer floor division `//` becomes `Nat`
  division;
- fallible calls are modelled with `Except`.
-/

/-- Entry `j` of the inverse-frequency vector built by
`RotaryEmbedding._compute_inv_freqs`: with `n = dim // n_heads` the source
builds `iota = range(0, n - 1, 2)` (so `iota[j] = 2 * j`) and returns
`1.0 / theta ** (iota / n)`. -/
noncomputable def invFreq (dim nHeads : ℕ) (θ : ℝ) (j : ℕ) : ℝ :=
  1 / θ ^ ((2 * j : ℝ) / ((dim / nHeads : ℕ) : ℝ))

/-- The whole inverse-frequency vector of `_compute_inv_freqs`: the range
`0, 2, …` up to `n - 1` has `n / 2` entries (`out_dim = n // 2` in the
source), giving a list of length `(dim // n_heads) // 2`. -/
noncomputable def computeInvFreqs (dim nHeads : ℕ) (θ : ℝ) : List ℝ :=
  (List.range ((dim / nHeads) / 2)).map (invFreq dim nHeads θ)

theorem computeInvFreqs_length (dim nHeads : ℕ) (θ : ℝ) :
    (computeInvFreqs dim nHeads θ).length = (dim / nHeads) / 2 := by
  simp [computeInvFreqs]

theorem computeInvFreqs_getD (dim nHeads : ℕ) (θ : ℝ) (j : ℕ)
    (hj : j < (dim / nHeads) / 2) :
    (computeInvFreqs dim nHeads θ).getD j 0 = invFreq dim nHeads θ j := by
  rw [computeInvFreqs, List.getD_eq_getElem _ _ (by simpa using hj)]
  simp

theorem invFreq_pos (dim nHeads : ℕ) (θ : ℝ) (hθ : 1 < θ) (j : ℕ) :
    0 < invFreq dim nHeads θ j := by
  have hb : (0 : ℝ) < θ := lt_trans one_pos hθ
  exact div_pos one_pos (Real.rpow_pos_of_pos hb _)

theorem invFreq_strictAnti (dim nHeads : ℕ) (θ : ℝ) (hθ : 1 < θ)
    (j k : ℕ) (hjk : j < k) (hk : k < (dim / nHeads) / 2) :
    invFreq dim nHeads θ k < invFreq dim nHeads θ j := by
  have hb : (0 : ℝ) < θ := lt_trans one_pos hθ
  have h4 : 4 ≤ dim / nHeads := by omega
  have hhd : 0 < ((dim / nHeads : ℕ) : ℝ) := by
    exact_mod_cast lt_of_lt_of_le (by norm_num) h4
  have hexp : (2 * j : ℝ) / ((dim / nHeads : ℕ) : ℝ) <
      (2 * k : ℝ) / ((dim / nHeads : ℕ) : ℝ) := by
    have h2 : (2 * j : ℝ) < (2 * k : ℝ) := by
      exact_mod_cast (by omega : 2 * j < 2 * k)
    exact (div_lt_div_iff_of_pos_right hhd).mpr h2
  have hpow : θ ^ ((2 * j : ℝ) / ((dim / nHeads : ℕ) : ℝ)) <
      θ ^ ((2 * k : ℝ) / ((dim / nHeads : ℕ) : ℝ)) :=
    (Real.rpow_lt_rpow_left_iff hθ).mpr hexp
  have hpj : (0 : ℝ) < θ ^ ((2 * j : ℝ) / ((dim / nHeads : ℕ) : ℝ)) :=
    Real.rpow_pos_of_pos hb _
  unfold invFreq
  exact one_div_lt_one_div_of_lt hpj hpow

/-- C1: for every valid configuration (dim divisible by n_heads, even head
dim) the inverse-frequency vector of `_compute_inv_freqs` has length
`head_dim / 2`, entry `j` is `1 / theta ^ (2 j / head_dim)`, and for
`theta > 1` every entry is positive and the sequence is strictly
decreasing. -/
theorem c1_inv_freqs_spec (dim nHeads : ℕ) (θ : ℝ)
    (_hdvd : nHeads ∣ dim) (_heven : 2 ∣ dim / nHeads) (hθ : 1 < θ) :
    (computeInvFreqs dim nHeads θ).length = (dim / nHeads) / 2 ∧
    (∀ j, j < (dim / nHeads) / 2 →
      (computeInvFreqs dim nHeads θ).getD j 0 =
        1 / θ ^ ((2 * j : ℝ) / ((dim / nHeads : ℕ) : ℝ))) ∧
    (∀ j, j < (dim / nHeads) / 2 →
      0 < (computeInvFreqs dim nHeads θ).getD j 0) ∧
    (∀ j k, j < k → k < (dim / nHeads) / 2 →
      (computeInvFreqs dim nHeads θ).getD k 0 <
        (computeInvFreqs dim nHeads θ).getD j 0) := by
  refine ⟨computeInvFreqs_length dim nHeads θ, ?_, ?_, ?_⟩
  · intro j hj
    rw [computeInvFreqs_getD dim nHeads θ j hj]
    rfl
  · intro j hj
    rw [computeInvFreqs_getD dim nHeads θ j hj]
    exact invFreq_pos dim nHeads θ hθ j
  · intro j k hjk hk
    rw [computeInvFreqs_getD dim nHeads θ k hk,
      computeInvFreqs_getD dim nHeads θ j (lt_trans hjk hk)]
    exact invFreq_strictAnti dim nHeads θ hθ j k hjk hk

/-- Witness for C1 at the concrete configuration dim = 8, n_heads = 1,
theta = 2. -/
theorem c1_inv_freqs_spec_witness :
    (computeInvFreqs 8 1 2).length = (8 / 1) / 2 ∧
    (∀ j, j < (8 / 1) / 2 →
      (computeInvFreqs 8 1 2).getD j 0 =
        1 / (2 : ℝ) ^ ((2 * j : ℝ) / ((8 / 1 : ℕ) : ℝ))) ∧
    (∀ j, j < (8 / 1) / 2 → 0 < (computeInvFreqs 8 1 2).getD j 0) ∧
    (∀ j k, j < k → k < (8 / 1) / 2 →
      (computeInvFreqs 8 1 2).getD k 0 < (computeInvFreqs 8 1 2).getD j 0) :=
  c1_inv_freqs_spec 8 1 2 (by decide) (by decide) (by norm_num)

/-- One (cos, sin) pair of the cached frequency table built by
`freqs_cis_base` from an arbitrary inverse-frequency vector `f`
(`freqs = outer(t, inv_freqs)`, then `stack([cos(freqs), sin(freqs)], -1)`).
Position `t` ranges over `0 .. 2 * max_seq_len` in the source; the model is
a total function of the indices. -/
noncomputable def freqsCisEntry (f : ℕ → ℝ) (t j : ℕ) : ℝ × ℝ :=
  (Real.cos ((t : ℝ) * f j), Real.sin ((t : ℝ) * f j))

/-- The table of `RotaryEmbedding.freqs_cis_base` with the base
inverse frequencies of `_compute_inv_freqs`. -/
noncomputable def freqsCisBase (dim nHeads : ℕ) (θ : ℝ) (t j : ℕ) : ℝ × ℝ :=
  freqsCisEntry (invFreq dim nHeads θ) t j

/-- One rotated pair of `RotaryEmbedding.__call__`:
`rope_re = x_re * f_re - x_im * f_im` and
`rope_im = x_re * f_im + x_im * f_re`. -/
def ropePair (re im c s : ℝ) : ℝ × ℝ :=
  (re * c - im * s, re * s + im * c)

/-- C2: applying the rotation with any (cos a, sin a) table entry
preserves the squared magnitude of every real/imaginary pair exactly
(the claimed floating tolerance is not needed in the real model); this
covers every scaling strategy that feeds the applier, since the applied
table is always built by `freqs_cis_base` from some inverse-frequency
vector. -/
theorem c2_rotation_isometry (f : ℕ → ℝ) (t j : ℕ) (re im : ℝ) :
    (ropePair re im (freqsCisEntry f t j).1 (freqsCisEntry f t j).2).1 ^ 2 +
      (ropePair re im (freqsCisEntry f t j).1 (freqsCisEntry f t j).2).2 ^ 2 =
      re ^ 2 + im ^ 2 := by
  simp only [ropePair, freqsCisEntry]
  linear_combination (re ^ 2 + im ^ 2) * Real.sin_sq_add_cos_sq ((t : ℝ) * f j)

/-- The flattening reshape of `OptimizedRotaryEmbedding.freqs_cis`: the
3-D table of shape `(2 * max_seq_len, head_dim / 2, 2)` becomes the 2-D
table of shape `(2 * max_seq_len, head_dim)`, so row-major entry `(t, k)`
is the cos part of pair `k / 2` when `k` is even and its sin part when `k`
is odd. -/
def flattenTable (T : ℕ → ℕ → ℝ × ℝ) (t k : ℕ) : ℝ :=
  if k % 2 = 0 then (T t (k / 2)).1 else (T t (k / 2)).2

/-- The reshape back performed by `RotaryEmbedding.__call__` when the
sliced table is 2-D (`freqs_cis_sliced.reshape((d0, d1 // 2, 2))`). -/
def unflattenTable (F : ℕ → ℕ → ℝ) (t j : ℕ) : ℝ × ℝ :=
  (F t (2 * j), F t (2 * j + 1))

/-- One output pair of `RotaryEmbedding.__call__`: the table is sliced at
rows `start_pos .. start_pos + seq_len` and the rotation applied per pair. -/
noncomputable def ropeApplyEntry (table : ℕ → ℕ → ℝ × ℝ) (startPos s j : ℕ)
    (re im : ℝ) : ℝ × ℝ :=
  ropePair re im (table (startPos + s) j).1 (table (startPos + s) j).2

theorem unflatten_flatten (T : ℕ → ℕ → ℝ × ℝ) (t j : ℕ) :
    unflattenTable (flattenTable T) t j = T t j := by
  simp [unflattenTable, flattenTable, Nat.mul_add_mod, Nat.mul_add_div,
    Nat.mul_mod_right, Nat.mul_div_cancel_left]

/-- C5: the flattened layout is a pure reshape with no numeric effect:
reshaping the flattened table back recovers the base table exactly, and
the applier output computed through the optimized (flatten, then reshape
back) path equals the output computed from the base table, for every
configuration, activation pair, start position and position index. -/
theorem c5_optimized_layout_equiv (dim nHeads : ℕ) (θ : ℝ) :
    (∀ t j, unflattenTable (flattenTable (freqsCisBase dim nHeads θ)) t j =
      freqsCisBase dim nHeads θ t j) ∧
    (∀ startPos s j re im,
      ropeApplyEntry (unflattenTable (flattenTable (freqsCisBase dim nHeads θ)))
          startPos s j re im =
        ropeApplyEntry (freqsCisBase dim nHeads θ) startPos s j re im) := by
  refine ⟨fun t j => unflatten_flatten _ t j, fun startPos s j re im => ?_⟩
  unfold ropeApplyEntry
  rw [unflatten_flatten]

/-- Scaling parameters of `Llama3RopeScalingParams`. -/
structure Llama3RopeScalingParams where
  factor : ℝ
  low_freq_factor : ℝ
  high_freq_factor : ℝ
  orig_max_position : ℕ

/-- The `smooth` tensor of `Llama3RotaryEmbedding._compute_inv_freqs`:
the quotient formula when the two frequency factors differ, the constant
0 otherwise. -/
noncomputable def llama3Smooth (p : Llama3RopeScalingParams) (waveLen : ℝ) : ℝ :=
  if p.low_freq_factor ≠ p.high_freq_factor then
    ((p.orig_max_position : ℝ) / waveLen - p.low_freq_factor) /
      (p.high_freq_factor - p.low_freq_factor)
  else 0

/-- The mid-band blend of `Llama3RotaryEmbedding._compute_inv_freqs`
(the innermost select branch):
`(1 - smooth) * inv_freqs / factor + smooth * inv_freqs` with
`wave_len = 2 * pi / inv_freqs`. -/
noncomputable def llama3Blend (p : Llama3RopeScalingParams) (f : ℝ) : ℝ :=
  (1 - llama3Smooth p (2 * Real.pi / f)) * f / p.factor +
    llama3Smooth p (2 * Real.pi / f) * f

/-- The per-component rescaling of one inverse-frequency entry performed
by the nested `ops.select` of `Llama3RotaryEmbedding._compute_inv_freqs`. -/
noncomputable def llama3ScaleInvFreq (p : Llama3RopeScalingParams) (f : ℝ) : ℝ :=
  if 2 * Real.pi / f < (p.orig_max_position : ℝ) / p.high_freq_factor then f
  else if 2 * Real.pi / f > (p.orig_max_position : ℝ) / p.low_freq_factor then
    f / p.factor
  else llama3Blend p f

/-- Entry `j` of `Llama3RotaryEmbedding._compute_inv_freqs`: the base
entry, rescaled only when scaling parameters are present. -/
noncomputable def llama3ComputeInvFreq (dim nHeads : ℕ) (θ : ℝ)
    (params : Option Llama3RopeScalingParams) (j : ℕ) : ℝ :=
  match params with
  | none => invFreq dim nHeads θ j
  | some p => llama3ScaleInvFreq p (invFreq dim nHeads θ j)

/-- The `smooth` value exactly as the claim words it: the quotient
formula, with `smooth` defined as 0 when the two factors coincide. -/
noncomputable def llama3SmoothClaim (p : Llama3RopeScalingParams) (f : ℝ) : ℝ :=
  if p.low_freq_factor = p.high_freq_factor then 0
  else ((p.orig_max_position : ℝ) / (2 * Real.pi / f) - p.low_freq_factor) /
    (p.high_freq_factor - p.low_freq_factor)

/-- The LinearSmooth rescaling exactly as the claim words it: `f`
unchanged below the high wavelength, `f / factor` above the low
wavelength, and otherwise the blend with `llama3SmoothClaim`. -/
noncomputable def llama3ScaleClaim (p : Llama3RopeScalingParams) (f : ℝ) : ℝ :=
  if 2 * Real.pi / f < (p.orig_max_position : ℝ) / p.high_freq_factor then f
  else if 2 * Real.pi / f > (p.orig_max_position : ℝ) / p.low_freq_factor then
    f / p.factor
  else (1 - llama3SmoothClaim p f) * f / p.factor + llama3SmoothClaim p f * f

/-- C3: the LinearSmooth rescaling implemented by the source agrees with
the claimed per-component selection (including the degenerate
`low_freq_factor == high_freq_factor` case, where `smooth` is the
constant 0), and with no scaling parameters the base inverse frequency
is returned unscaled. -/
theorem c3_linear_smooth_spec (p : Llama3RopeScalingParams)
    (dim nHeads : ℕ) (θ : ℝ) (f : ℝ) (j : ℕ) :
    llama3ScaleInvFreq p f = llama3ScaleClaim p f ∧
    (p.low_freq_factor = p.high_freq_factor →
      llama3Smooth p (2 * Real.pi / f) = 0) ∧
    llama3ComputeInvFreq dim nHeads θ none j = invFreq dim nHeads θ j := by
  have hsm : llama3Smooth p (2 * Real.pi / f) = llama3SmoothClaim p f := by
    by_cases h : p.low_freq_factor = p.high_freq_factor
    · simp [llama3Smooth, llama3SmoothClaim, h]
    · simp [llama3Smooth, llama3SmoothClaim, h]
  refine ⟨?_, ?_, rfl⟩
  · unfold llama3ScaleInvFreq llama3ScaleClaim llama3Blend
    rw [hsm]
  · intro h
    simp [llama3Smooth, h]

/-- C4: the LinearSmooth blend is continuous at both region boundaries:
for the frequency whose wavelength is exactly the high wavelength
(`f = 2 pi * high_freq_factor / orig_max_position`) the blend evaluates
to `f` itself, and for the frequency at the low wavelength it evaluates
to `f / factor`, whenever the two frequency factors differ. -/
theorem c4_linear_smooth_boundary (p : Llama3RopeScalingParams)
    (hne : p.low_freq_factor ≠ p.high_freq_factor)
    (homp : 0 < p.orig_max_position)
    (hhf : p.high_freq_factor ≠ 0) (hlf : p.low_freq_factor ≠ 0) :
    llama3Blend p (2 * Real.pi * p.high_freq_factor / (p.orig_max_position : ℝ)) =
      2 * Real.pi * p.high_freq_factor / (p.orig_max_position : ℝ) ∧
    llama3Blend p (2 * Real.pi * p.low_freq_factor / (p.orig_max_position : ℝ)) =
      (2 * Real.pi * p.low_freq_factor / (p.orig_max_position : ℝ)) / p.factor := by
  have hpi : Real.pi ≠ 0 := Real.pi_ne_zero
  have homp2 : ((p.orig_max_position : ℕ) : ℝ) ≠ 0 :=
    Nat.cast_ne_zero.mpr homp.ne'
  have hsub : p.high_freq_factor - p.low_freq_factor ≠ 0 :=
    sub_ne_zero.mpr (Ne.symm hne)
  constructor
  · have hwav : 2 * Real.pi / (2 * Real.pi * p.high_freq_factor /
        (p.orig_max_position : ℝ)) = (p.orig_max_position : ℝ) / p.high_freq_factor := by
      field_simp
      ring
    have hsm : llama3Smooth p ((p.orig_max_position : ℝ) / p.high_freq_factor) = 1 := by
      rw [llama3Smooth, if_pos hne]
      rw [div_div_cancel₀]
      · rw [div_eq_one_iff_eq hsub]
      · exact homp2
    rw [llama3Blend, hwav, hsm]
    ring
  · have hwav : 2 * Real.pi / (2 * Real.pi * p.low_freq_factor /
        (p.orig_max_position : ℝ)) = (p.orig_max_position : ℝ) / p.low_freq_factor := by
      field_simp
      ring
    have hsm : llama3Smooth p ((p.orig_max_position : ℝ) / p.low_freq_factor) = 0 := by
      rw [llama3Smooth, if_pos hne]
      rw [div_div_cancel₀]
      · rw [div_eq_zero_iff]
        left
        exact sub_self p.low_freq_factor
      · exact homp2
    rw [llama3Blend, hwav, hsm]
    ring

/-- Witness for C4 with the parameter set named by the spec
(low_freq_factor = 1, high_freq_factor = 4, factor = 8,
orig_max_position = 8192). -/
theorem c4_linear_smooth_boundary_witness :
    llama3Blend ⟨8, 1, 4, 8192⟩ (2 * Real.pi * 4 / ((8192 : ℕ) : ℝ)) =
      2 * Real.pi * 4 / ((8192 : ℕ) : ℝ) ∧
    llama3Blend ⟨8, 1, 4, 8192⟩ (2 * Real.pi * 1 / ((8192 : ℕ) : ℝ)) =
      (2 * Real.pi * 1 / ((8192 : ℕ) : ℝ)) / 8 :=
  c4_linear_smooth_boundary ⟨8, 1, 4, 8192⟩ (by norm_num) (by norm_num)
    (by norm_num) (by norm_num)

/-- Scaling parameters of `DeepseekYarnRopeScalingParams`. -/
structure DeepseekYarnRopeScalingParams where
  scaling_factor : ℝ
  original_max_position_embeddings : ℕ
  beta_fast : ℤ
  beta_slow : ℤ
  mscale : ℝ
  mscale_all_dim : ℝ

/-- `_yarn_find_correction_dim`: the inverse correction-dimension formula
`dim * log(max_pos / (num_rotations * 2 * pi)) / (2 * log(base))`. -/
noncomputable def yarnFindCorrectionDim (numRotations : ℝ) (dim : ℕ)
    (base : ℝ) (maxPos : ℕ) : ℝ :=
  ((dim : ℝ) * Real.log ((maxPos : ℝ) / (numRotations * 2 * Real.pi))) /
    (2 * Real.log base)

/-- `_yarn_find_correction_range`: floors of the two correction
dimensions, with `low` clamped to at least 0 and `high` clamped to at
most `dim - 1` (the `dim` argument the caller passes, which is the full
`self.dim`). -/
noncomputable def yarnFindCorrectionRange (lowRot highRot : ℝ) (dim : ℕ)
    (base : ℝ) (maxPos : ℕ) : ℝ × ℝ :=
  (max (⌊yarnFindCorrectionDim lowRot dim base maxPos⌋ : ℝ) 0,
   min (⌊yarnFindCorrectionDim highRot dim base maxPos⌋ : ℝ) ((dim : ℝ) - 1))

/-- The correction range as `_compute_yarn_freqs` requests it:
`low_rot = beta_fast`, `high_rot = beta_slow`, `dim = self.dim`, and the
base is `int(self.theta)`, modelled as the floor (the source only ever
passes a nonnegative base, where Python int() truncation is the floor). -/
noncomputable def yarnCorrectionRange (dim : ℕ) (θ : ℝ)
    (p : DeepseekYarnRopeScalingParams) : ℝ × ℝ :=
  yarnFindCorrectionRange (p.beta_fast : ℝ) (p.beta_slow : ℝ) dim
    ((⌊θ⌋ : ℤ) : ℝ) p.original_max_position_embeddings

/-- The correction-dimension formula exactly as the claim words it, with
`theta` the configured base. -/
noncomputable def correctionDimClaim (r : ℝ) (dim : ℕ) (θ : ℝ)
    (maxPos : ℕ) : ℝ :=
  (dim : ℝ) * Real.log ((maxPos : ℝ) / (r * (2 * Real.pi))) /
    (2 * Real.log θ)

/-- The correction range exactly as the claim words it: `low` clamped to
at least 0 and `high` clamped to at most `dim / 2 - 1`. -/
noncomputable def correctionRangeClaim (dim : ℕ) (θ : ℝ)
    (p : DeepseekYarnRopeScalingParams) : ℝ × ℝ :=
  (max (⌊correctionDimClaim (p.beta_fast : ℝ) dim θ
      p.original_max_position_embeddings⌋ : ℝ) 0,
   min (⌊correctionDimClaim (p.beta_slow : ℝ) dim θ
      p.original_max_position_embeddings⌋ : ℝ) (((dim / 2 : ℕ) : ℝ) - 1))

/-- Counterexample to C6: at dim = 4, theta = 2, max position 100 and
beta_slow = 1 the correction dimension is at least 2, so the code
(clamping high at dim - 1 = 3) and the claim (clamping high at
dim / 2 - 1 = 1) give different upper bounds. -/
theorem c6_correction_range_counterexample :
    (yarnCorrectionRange 4 2 ⟨2, 100, 1, 1, 1, 1⟩).2 ≠
      (correctionRangeClaim 4 2 ⟨2, 100, 1, 1, 1, 1⟩).2 := by
  have hfl2 : (⌊(2 : ℝ)⌋ : ℤ) = 2 := by
    rw [show (2 : ℝ) = ((2 : ℤ) : ℝ) by norm_num, Int.floor_intCast]
  have hlog2 : (0 : ℝ) < Real.log 2 := Real.log_pos (by norm_num)
  have harg : (2 : ℝ) ≤ (100 : ℝ) / ((1 : ℝ) * 2 * Real.pi) := by
    rw [le_div_iff₀ (by positivity)]
    nlinarith [Real.pi_lt_d2]
  have hlog : Real.log 2 ≤ Real.log ((100 : ℝ) / ((1 : ℝ) * 2 * Real.pi)) :=
    Real.log_le_log (by norm_num) harg
  have hA : (2 : ℝ) ≤ yarnFindCorrectionDim 1 4 2 100 := by
    unfold yarnFindCorrectionDim
    rw [le_div_iff₀ (by positivity)]
    push_cast
    linarith [hlog]
  have hfl : (2 : ℤ) ≤ ⌊yarnFindCorrectionDim 1 4 2 100⌋ :=
    Int.le_floor.mpr (by exact_mod_cast hA)
  have hcode : (yarnCorrectionRange 4 2 ⟨2, 100, 1, 1, 1, 1⟩).2 =
      min ((⌊yarnFindCorrectionDim 1 4 2 100⌋ : ℤ) : ℝ) 3 := by
    simp only [yarnCorrectionRange, yarnFindCorrectionRange, hfl2]
    push_cast
    norm_num
  have hdim : correctionDimClaim 1 4 2 100 = yarnFindCorrectionDim 1 4 2 100 := by
    unfold correctionDimClaim yarnFindCorrectionDim
    ring_nf
  have hclaim : (correctionRangeClaim 4 2 ⟨2, 100, 1, 1, 1, 1⟩).2 =
      min ((⌊yarnFindCorrectionDim 1 4 2 100⌋ : ℤ) : ℝ) 1 := by
    simp only [correctionRangeClaim]
    push_cast
    rw [hdim]
    norm_num
  rw [hcode, hclaim]
  have hge : (2 : ℝ) ≤ min ((⌊yarnFindCorrectionDim 1 4 2 100⌋ : ℤ) : ℝ) 3 :=
    le_min (by exact_mod_cast hfl) (by norm_num)
  have hone : min ((⌊yarnFindCorrectionDim 1 4 2 100⌋ : ℤ) : ℝ) 1 = 1 :=
    min_eq_right (by exact_mod_cast le_trans (by norm_num) hfl)
  rw [hone]
  intro hEq
  rw [hEq] at hge
  norm_num at hge

/-- C6 amended: the source computes the correction range from the
floors of the claimed inverse correction-dimension formula, with
`low` clamped to at least 0, but clamps `high` to at most `dim - 1`
(the full dimension), not `dim / 2 - 1`, and evaluates the formula with
the base truncated to an integer. -/
theorem c6_correction_range_amended (dim : ℕ) (θ : ℝ)
    (p : DeepseekYarnRopeScalingParams) :
    yarnCorrectionRange dim θ p =
      (max (⌊correctionDimClaim (p.beta_fast : ℝ) dim ((⌊θ⌋ : ℤ) : ℝ)
          p.original_max_position_embeddings⌋ : ℝ) 0,
       min (⌊correctionDimClaim (p.beta_slow : ℝ) dim ((⌊θ⌋ : ℤ) : ℝ)
          p.original_max_position_embeddings⌋ : ℝ) ((dim : ℝ) - 1)) := by
  simp only [yarnCorrectionRange, yarnFindCorrectionRange,
    yarnFindCorrectionDim, correctionDimClaim, mul_assoc]

/-- The divisor used by `_yarn_linear_ramp_mask` after the degenerate
nudge: `max` is bumped by 0.001 when the two bounds are equal, and the
ramp divides by `max - min`. The comparison and in-place adjustment of
the bound tensors are modelled from the spec as numeric equality and
addition (their tensor semantics is not part of the staged sources). -/
noncomputable def yarnRampDivisor (lo hi : ℝ) : ℝ :=
  (if lo = hi then hi + 0.001 else hi) - lo

/-- Entry `j` of `_yarn_linear_ramp_mask`:
`min(max((j - min) / (max - min), 0), 1)` after the degenerate nudge.
The mask is materialized for `j` in `0 .. dim`; the model is a total
function of the index. -/
noncomputable def yarnLinearRampMask (lo hi : ℝ) (j : ℕ) : ℝ :=
  min (max (((j : ℝ) - lo) / yarnRampDivisor lo hi) 0) 1

/-- Counterexample to C7: for the bound pair low = 1, high = 0 the ramp
is strictly decreasing between indices 0 and 1, so it is not
monotonically non-decreasing for every pair of bounds. -/
theorem c7_ramp_counterexample :
    yarnLinearRampMask 1 0 1 < yarnLinearRampMask 1 0 0 := by
  have h10 : (1 : ℝ) ≠ 0 := by norm_num
  unfold yarnLinearRampMask yarnRampDivisor
  rw [if_neg h10]
  norm_num

/-- C7 amended: for every pair of bounds the ramp-mask divisor is never
zero (the nudge handles the equal-bounds case) and every entry is a
well-defined real clamped to [0, 1]; over the index the mask is
monotonically non-decreasing whenever low does not exceed high, and
monotonically non-increasing when low exceeds high. -/
theorem c7_ramp_mask_amended (lo hi : ℝ) (j k : ℕ) (hjk : j ≤ k) :
    yarnRampDivisor lo hi ≠ 0 ∧
    0 ≤ yarnLinearRampMask lo hi j ∧
    yarnLinearRampMask lo hi j ≤ 1 ∧
    (lo ≤ hi → yarnLinearRampMask lo hi j ≤ yarnLinearRampMask lo hi k) ∧
    (hi < lo → yarnLinearRampMask lo hi k ≤ yarnLinearRampMask lo hi j) := by
  have hsub : ((j : ℝ) - lo) ≤ ((k : ℝ) - lo) :=
    sub_le_sub_right (by exact_mod_cast hjk) lo
  refine ⟨?_, ?_, ?_, ?_, ?_⟩
  · unfold yarnRampDivisor
    by_cases h : lo = hi
    · rw [if_pos h, h]
      norm_num
    · rw [if_neg h]
      exact sub_ne_zero.mpr (Ne.symm h)
  · exact le_min (le_max_right _ 0) zero_le_one
  · exact min_le_right _ 1
  · intro hlh
    have hdiv : 0 < yarnRampDivisor lo hi := by
      unfold yarnRampDivisor
      by_cases h : lo = hi
      · rw [if_pos h, h]
        norm_num
      · rw [if_neg h]
        exact sub_pos.mpr (lt_of_le_of_ne hlh h)
    unfold yarnLinearRampMask
    exact min_le_min
      (max_le_max ((div_le_div_iff_of_pos_right hdiv).mpr hsub) (le_refl 0))
      (le_refl 1)
  · intro hgt
    have hne : lo ≠ hi := ne_of_gt hgt
    have hdiv : yarnRampDivisor lo hi < 0 := by
      unfold yarnRampDivisor
      rw [if_neg hne]
      exact sub_neg.mpr hgt
    unfold yarnLinearRampMask
    exact min_le_min
      (max_le_max ((div_le_div_right_of_neg hdiv).mpr hsub) (le_refl 0))
      (le_refl 1)

/-- Witness for C7 amended at low = 0, high = 1, indices 0 and 1. -/
theorem c7_ramp_mask_amended_witness :
    yarnRampDivisor 0 1 ≠ 0 ∧
    0 ≤ yarnLinearRampMask 0 1 0 ∧
    yarnLinearRampMask 0 1 0 ≤ 1 ∧
    ((0 : ℝ) ≤ 1 → yarnLinearRampMask 0 1 0 ≤ yarnLinearRampMask 0 1 1) ∧
    ((1 : ℝ) < 0 → yarnLinearRampMask 0 1 1 ≤ yarnLinearRampMask 0 1 0) :=
  c7_ramp_mask_amended 0 1 0 1 (by norm_num)

/-- `_yarn_get_mscale`: 1 when the scale is at most 1, otherwise
`0.1 * mscale * log(scale) + 1`. -/
noncomputable def yarnGetMscale (scale m : ℝ) : ℝ :=
  if scale ≤ 1 then 1 else 0.1 * m * Real.log scale + 1

/-- The `_mscale` multiplier of `_compute_yarn_freqs`. -/
noncomputable def yarnMscale (p : DeepseekYarnRopeScalingParams) : ℝ :=
  yarnGetMscale p.scaling_factor p.mscale /
    yarnGetMscale p.scaling_factor p.mscale_all_dim

/-- Entry `j` of the blended YaRN inverse-frequency vector of
`_compute_yarn_freqs`: `freq_base = theta ** (2 j / dim)`,
`freq_extra = 1 / freq_base`, `freq_inter = 1 / (scaling_factor *
freq_base)`, and the blend
`freq_inter * (1 - inv_freq_mask) + freq_extra * inv_freq_mask` with
`inv_freq_mask = 1 - ramp(low, high)` at index `j`. -/
noncomputable def yarnInvFreq (dim : ℕ) (θ : ℝ)
    (p : DeepseekYarnRopeScalingParams) (j : ℕ) : ℝ :=
  let freqBase := θ ^ ((2 * j : ℝ) / (dim : ℝ))
  let freqExtra := 1 / freqBase
  let freqInter := 1 / (p.scaling_factor * freqBase)
  let lowHigh := yarnCorrectionRange dim θ p
  let invFreqMask := 1 - yarnLinearRampMask lowHigh.1 lowHigh.2 j
  freqInter * (1 - invFreqMask) + freqExtra * invFreqMask

/-- Entry `(t, k)` of the duplicated angle tensor
`emb = concat((freqs, freqs), axis=-1)` with `freqs = outer(t, inv_freq)`:
columns `0 .. dim/2` hold the frequencies and columns `dim/2 .. dim`
repeat them. -/
noncomputable def yarnEmb (dim : ℕ) (θ : ℝ)
    (p : DeepseekYarnRopeScalingParams) (t k : ℕ) : ℝ :=
  (t : ℝ) * yarnInvFreq dim θ p (if k < dim / 2 then k else k - dim / 2)

/-- The cosine table returned by `_compute_yarn_freqs`
(`cos(emb) * _mscale`), materialized for positions `0 .. seq_len`. -/
noncomputable def yarnCosTable (dim : ℕ) (θ : ℝ)
    (p : DeepseekYarnRopeScalingParams) (seqLen : ℕ) : List (List ℝ) :=
  (List.range seqLen).map fun t =>
    (List.range dim).map fun k => Real.cos (yarnEmb dim θ p t k) * yarnMscale p

/-- The sine table returned by `_compute_yarn_freqs`
(`sin(emb) * _mscale`), materialized for positions `0 .. seq_len`. -/
noncomputable def yarnSinTable (dim : ℕ) (θ : ℝ)
    (p : DeepseekYarnRopeScalingParams) (seqLen : ℕ) : List (List ℝ) :=
  (List.range seqLen).map fun t =>
    (List.range dim).map fun k => Real.sin (yarnEmb dim θ p t k) * yarnMscale p

/-- An activation tensor: its shape and its values (indexed by up to
four axes; the YaRN call only ever reads the shape). -/
structure Activation where
  shape : List ℕ
  data : ℕ → ℕ → ℕ → ℕ → ℝ

/-- Python `shape[-2]`, the second-from-last axis (the axis
`_compute_yarn_freqs` reads as `seq_len`); shorter shapes would raise an
index error in Python and are not reachable from the modelled claims. -/
def shapeNeg2 (s : List ℕ) : ℕ :=
  s.reverse.getD 1 0

/-- `DeepseekYarnRotaryEmbedding.__call__`: raises when
`scaling_params is None`, otherwise stacks the (cos, sin) tables built
for `seq_len = x.shape[-2]`; the `start_pos` and `seq_len` arguments are
accepted but never read. -/
noncomputable def deepseekYarnCall (dim : ℕ) (θ : ℝ)
    (params : Option DeepseekYarnRopeScalingParams) (x : Activation)
    (startPos : Option ℤ) (seqLen : Option ℕ) :
    Except String (List (List ℝ) × List (List ℝ)) :=
  match params with
  | none => .error "scaling_params must be provided"
  | some p =>
    .ok (yarnCosTable dim θ p (shapeNeg2 x.shape),
      yarnSinTable dim θ p (shapeNeg2 x.shape))

/-- C8: the YaRN strategy raises the configuration error exactly when
its scaling parameters are absent; with parameters present the call
returns the stacked (cos, sin) tables, and with them absent the error is
the whole result (no partial tables are produced). -/
theorem c8_yarn_requires_params (dim : ℕ) (θ : ℝ) (x : Activation)
    (startPos : Option ℤ) (seqLen : Option ℕ) :
    deepseekYarnCall dim θ none x startPos seqLen =
      Except.error "scaling_params must be provided" ∧
    (∀ p, deepseekYarnCall dim θ (some p) x startPos seqLen =
      Except.ok (yarnCosTable dim θ p (shapeNeg2 x.shape),
        yarnSinTable dim θ p (shapeNeg2 x.shape))) ∧
    (∀ params, (∃ e, deepseekYarnCall dim θ params x startPos seqLen =
      Except.error e) ↔ params = none) := by
  refine ⟨rfl, fun p => rfl, fun params => ?_⟩
  cases params with
  | none => exact ⟨fun _ => rfl, fun _ => ⟨_, rfl⟩⟩
  | some p =>
    constructor
    · rintro ⟨e, he⟩
      exact absurd he (by simp [deepseekYarnCall])
    · intro h
      exact absurd h (by simp)

/-- C10: the YaRN call output depends only on the second-from-last axis
of the input shape: two activations agreeing there produce identical
stacked tables, for any values of the ignored start position and
sequence-length arguments. -/
theorem c10_yarn_depends_only_on_seq_axis (dim : ℕ) (θ : ℝ)
    (params : Option DeepseekYarnRopeScalingParams) (x1 x2 : Activation)
    (sp1 sp2 : Option ℤ) (sl1 sl2 : Option ℕ)
    (h : shapeNeg2 x1.shape = shapeNeg2 x2.shape) :
    deepseekYarnCall dim θ params x1 sp1 sl1 =
      deepseekYarnCall dim θ params x2 sp2 sl2 := by
  cases params with
  | none => rfl
  | some p => simp only [deepseekYarnCall, h]

/-- Witness for C10: two activations with different batch axes, head
axes and values but the same `shape[-2]` yield the same tables. -/
theorem c10_yarn_depends_only_on_seq_axis_witness :
    deepseekYarnCall 8 10000 (some ⟨2, 100, 32, 1, 1, 1⟩)
        ⟨[1, 2, 3, 4], fun _ _ _ _ => 0⟩ none none =
      deepseekYarnCall 8 10000 (some ⟨2, 100, 32, 1, 1, 1⟩)
        ⟨[5, 6, 3, 9], fun _ _ _ _ => 1⟩ (some 5) (some 7) :=
  c10_yarn_depends_only_on_seq_axis 8 10000 (some ⟨2, 100, 32, 1, 1, 1⟩)
    ⟨[1, 2, 3, 4], fun _ _ _ _ => 0⟩ ⟨[5, 6, 3, 9], fun _ _ _ _ => 1⟩
    none (some 5) none (some 7) (by decide)

/-- The `RotaryEmbedding` dataclass configuration fields. -/
structure RotaryEmbeddingCfg where
  dim : ℕ
  n_heads : ℕ
  theta : ℝ
  max_seq_len : ℕ
  interleaved : Bool

/-- Engine construction: the `RotaryEmbedding` dataclass constructor
(and its `__post_init__`) only stores the fields and performs no
validation whatsoever; the codomain is an `Option` so that the claimed
construction failure is statable, and the source never produces `none`. -/
def ropeBuild (dim n_heads : ℕ) (theta : ℝ) (max_seq_len : ℕ)
    (interleaved : Bool) : Option RotaryEmbeddingCfg :=
  some ⟨dim, n_heads, theta, max_seq_len, interleaved⟩

/-- Counterexample to C9: dim = 7 is not divisible by n_heads = 2, yet
construction succeeds and returns an engine instance. -/
theorem c9_build_counterexample :
    7 % 2 ≠ 0 ∧ (ropeBuild 7 2 10000 16 true).isSome = true :=
  ⟨by decide, rfl⟩

/-- C9 amended: engine construction never fails; no divisibility check
exists, `dim // n_heads` is floor division, and the inverse-frequency
vector still has length `(dim // n_heads) // 2` for every configuration,
divisible or not. -/
theorem c9_build_never_fails (dim n_heads : ℕ) (theta : ℝ)
    (max_seq_len : ℕ) (interleaved : Bool) :
    (ropeBuild dim n_heads theta max_seq_len interleaved).isSome = true ∧
    (computeInvFreqs dim n_heads theta).length = (dim / n_heads) / 2 :=
  ⟨rfl, computeInvFreqs_length dim n_heads theta⟩
